import Mathlib

/-!
Verification of the ranking and awards engine of the fantasy-golf-2026
repository (src/logic.py, src/database.py, src/app.py).

The Python code is shallowly embedded: scores are integers (`ℤ`), ranking
points and handicaps are exact rationals (`ℚ`), Python `round()` is modelled
as round-half-to-even on exact rationals, SQLite tables are Lean lists of
records, and pandas dataframes are lists of row structures.
-/

namespace FG

/-- Model of Python 3 `round(q)`: nearest integer, with an exact fractional
part of 1/2 resolved to the even neighbour (banker's rounding).  Python
applies this to binary floats; all values reached in this development are
exact halves or integers, where the float and rational behaviours agree. -/
def pyRound (q : ℚ) : ℤ :=
  let f := ⌊q⌋
  let r := q - f
  if r < 1/2 then f
  else if 1/2 < r then f + 1
  else if f % 2 = 0 then f else f + 1

/-- Model of Python 3 `round(q, 1)` (used by `calculate_new_handicap`):
round to one decimal place, ties to even. -/
def roundTo1 (q : ℚ) : ℚ := (pyRound (10 * q) : ℚ) / 10

/-- `base` of src/logic.py `calculate_rp`: doubled surplus at or above the
target of 36, Python-rounded half deficit below it. -/
def rpBase (score : ℤ) : ℤ :=
  if score ≥ 36 then (score - 36) * 2
  else pyRound (((score - 36 : ℤ) : ℚ) / 2)

/-- The first `note_parts` entry of src/logic.py `calculate_rp`. -/
def rpBaseNote (score : ℤ) : String :=
  if score ≥ 36 then "Stbl Perf (+" ++ toString (rpBase score) ++ ")"
  else "Stbl Perf (" ++ toString (rpBase score) ++ ")"

/-- src/logic.py `calculate_rp`.  The Python function first coerces its
score argument via `int(float(...))`; the embedding takes the already-coerced
integer.  Returns `(total, notes)`.  The sequential `total +=`/`append`
statements are written as one sum and one list concatenation. -/
def calculate_rp (stableford_score : ℤ) (clean_sheet : Bool := false)
    (hole_in_one : Bool := false) (bonuses : ℚ := 0) : ℚ × String :=
  let total : ℚ := (rpBase stableford_score : ℚ) + bonuses
    + (if clean_sheet then 2 else 0) + (if hole_in_one then 10 else 0)
  let note_parts : List String :=
    [rpBaseNote stableford_score]
      ++ (if clean_sheet then ["Clean Sheet (+2)"] else [])
      ++ (if hole_in_one then ["Hole-in-One (+10)"] else [])
  (total, String.intercalate ", " note_parts)

/-- src/logic.py `calculate_new_handicap`.  `playing_hcp` is computed by the
source but never used afterwards (dead local); it is reproduced here for
fidelity.  The final Python `round(new_hcp, 1)` is `roundTo1`. -/
def calculate_new_handicap (current_hcp : ℚ) (stableford_score : ℤ)
    (is_away_game : Bool := false) (par_70_plus : Bool := false) : ℚ :=
  let _playing_hcp : ℚ :=
    if is_away_game ∧ par_70_plus then
      if current_hcp ≤ 10 then current_hcp + 3
      else if current_hcp ≤ 20 then current_hcp + 5
      else current_hcp + 7
    else current_hcp
  let new_hcp : ℚ :=
    if current_hcp > 36 ∧ stableford_score > 36 then
      current_hcp - ((stableford_score : ℚ) - 36)
    else if stableford_score ≥ 40 then current_hcp - 2
    else if 37 ≤ stableford_score ∧ stableford_score ≤ 39 then current_hcp - 1
    else if 27 ≤ stableford_score ∧ stableford_score ≤ 36 then current_hcp
    else current_hcp + 1
  roundTo1 new_hcp

/-- Fractional digits of a rational in `[0,1)`, most significant first. -/
def fracDigits : ℕ → ℚ → List Char
  | 0, _ => []
  | k + 1, r =>
    let d := (⌊r * 10⌋).toNat
    Char.ofNat (48 + d) :: fracDigits k (r * 10 - (d : ℚ))

/-- Model of the Python float format
string used for the winner-of-day share (`"%g"`-style: integers print with
no decimal point, fractions print with trailing zeros removed).  The pot
splits reached by the claims are terminating decimals, where six fractional
digits reproduce the Python output. -/
def fmtG (q : ℚ) : String :=
  if q.den = 1 then toString q.num
  else
    let sign := if q < 0 then "-" else ""
    let a := |q|
    let ip := (⌊a⌋).toNat
    let ds := fracDigits 6 (a - (ip : ℚ))
    let ds := (ds.reverse.dropWhile (fun c => c = '0')).reverse
    sign ++ toString ip ++ "." ++ String.mk ds

/-- One row of the group submission handed to `calculate_group_bonuses`
(src/logic.py): the dict
`{name, gross, stbl, hcp, clean, hio, road_warrior}` with `stbl` already
coerced to an integer by the function's safety cast. -/
structure GroupPlayer where
  name : String
  stbl : ℤ
  hcp : ℚ
  clean : Bool
  hio : Bool
  road_warrior : Bool
deriving DecidableEq, Repr

/-- One value of the `results` dict returned by `calculate_group_bonuses`. -/
structure GroupResult where
  total_rp : ℚ
  notes : String
  new_hcp : ℚ
deriving DecidableEq, Repr

/-- `sorted_players[0]['stbl']` of src/logic.py: the highest stableford in
the cohort (the head of the descending sort), computed as a running maximum
seeded with the first player. -/
def groupHighest (g0 : GroupPlayer) (group : List GroupPlayer) : ℤ :=
  group.foldl (fun a p => max a p.stbl) g0.stbl

/-- `winners` of src/logic.py: all players achieving the highest stableford.
The source filters the descending-sorted list; only the names and the length
of this list are consumed, so filtering the submission order is faithful. -/
def groupWinners (g0 : GroupPlayer) (group : List GroupPlayer) :
    List GroupPlayer :=
  group.filter (fun p => p.stbl = groupHighest g0 group)

/-- `pot_size` of src/logic.py `calculate_group_bonuses`. -/
def groupPotSize (num_players : ℕ) : ℚ :=
  if num_players = 2 then 2
  else if num_players = 3 then 4
  else if 4 ≤ num_players then 6
  else 0

/-- `wod_share` of src/logic.py `calculate_group_bonuses`. -/
def groupWodShare (g0 : GroupPlayer) (group : List GroupPlayer) : ℚ :=
  if 2 ≤ group.length ∧ 0 < groupPotSize group.length then
    groupPotSize group.length / ((groupWinners g0 group).length : ℚ)
  else 0

/-- The bonus accumulation of the per-player loop body of
`calculate_group_bonuses` (src/logic.py): participation, winner-of-day
share, giant slayer, road warrior.  Returns the accumulated `bonuses`
and the `notes` list built alongside; the sequential `+=`/`append`
statements are written as one sum and one concatenation. -/
def playerBonuses (group : List GroupPlayer) (standings : String → ℚ)
    (winnerNames : List String) (wodShare : ℚ) (isTie : Bool)
    (numPlayers : ℕ) (p : GroupPlayer) : ℚ × List String :=
  let isWod := p.name ∈ winnerNames ∧ 2 ≤ numPlayers
  let slayer : ℕ :=
    (group.filter (fun opp => ¬ (opp.name = p.name) ∧ opp.stbl < p.stbl ∧
        standings p.name < standings opp.name)).length
  let bonuses : ℚ := 2 + (if isWod then wodShare else 0)
    + (if 0 < slayer then (slayer : ℚ) else 0)
    + (if p.road_warrior then 2 else 0)
  let notes : List String := ["Part (+2)"]
    ++ (if isWod then
          ["Winner of Day" ++ (if isTie then " (Tie)" else "")
            ++ " (+" ++ fmtG wodShare ++ ")"]
        else [])
    ++ (if 0 < slayer then ["Giant Slayer (+" ++ toString slayer ++ ")"]
        else [])
    ++ (if p.road_warrior then ["Road Warrior (+2)"] else [])
  (bonuses, notes)

/-- The `results[name] = {...}` entry built by the loop body of
`calculate_group_bonuses` for one player. -/
def groupEntry (group : List GroupPlayer) (standings : String → ℚ)
    (winnerNames : List String) (wodShare : ℚ) (isTie : Bool)
    (numPlayers : ℕ) (p : GroupPlayer) : GroupResult :=
  let bn := playerBonuses group standings winnerNames wodShare isTie
    numPlayers p
  let rp := calculate_rp p.stbl p.clean p.hio bn.1
  { total_rp := rp.1
    notes := rp.2 ++ ", " ++ String.intercalate ", " bn.2
    new_hcp := calculate_new_handicap p.hcp p.stbl }

/-- src/logic.py `calculate_group_bonuses`.  `standings` models
`current_standings.get(name, {}).get('rp', 0)` as a total lookup.  The
Python dict result keyed by name is modelled as the association list in
submission order.  The source raises on an empty cohort
(`sorted_players[0]`); the embedding returns the empty dict there. -/
def calculate_group_bonuses (group : List GroupPlayer)
    (standings : String → ℚ) : List (String × GroupResult) :=
  match group with
  | [] => []
  | g0 :: _ =>
    let winnerNames := (groupWinners g0 group).map (fun w => w.name)
    let wodShare := groupWodShare g0 group
    let isTie := decide (1 < (groupWinners g0 group).length)
    group.map (fun p =>
      (p.name, groupEntry group standings winnerNames wodShare isTie
        group.length p))

/-- The winner/reason determination phase of src/logic.py
`calculate_rivalry_1v1` (the if/elif chain assigning `winner`, `reason`). -/
def rivalryWinner (p1_strokes p2_strokes : ℤ) (p1_hcp p2_hcp : ℚ) :
    String × String :=
  if p1_strokes < p2_strokes then ("p1", "Lower Strokes")
  else if p2_strokes < p1_strokes then ("p2", "Lower Strokes")
  else if p1_hcp > p2_hcp then ("p1", "Tie-Breaker (Underdog)")
  else if p2_hcp > p1_hcp then ("p2", "Tie-Breaker (Underdog)")
  else ("tie", "Absolute Tie")

/-- src/logic.py `calculate_rivalry_1v1`.  Returns
`(winner tag, stakes, reason)` exactly as the source tuple; `is_upset`
compares the handicaps of winner and loser. -/
def calculate_rivalry_1v1 (p1_strokes p2_strokes : ℤ) (p1_hcp p2_hcp : ℚ) :
    String × ℤ × String :=
  let wr := rivalryWinner p1_strokes p2_strokes p1_hcp p2_hcp
  if wr.1 = "p1" then
    ("p1", if p1_hcp > p2_hcp then 10 else 5, wr.2)
  else if wr.1 = "p2" then
    ("p2", if p2_hcp > p1_hcp then 10 else 5, wr.2)
  else ("tie", 0, wr.2)

/-- One row of the `rounds` table (src/database.py `init_db`).  The SQLite
autoincrement `id` is not consulted by any modelled operation and is
omitted.  `clean_sheet`, `hole_in_one` and `is_rivalry` are stored as 0/1
integers and modelled as booleans. -/
structure Round where
  match_group_id : Option String
  player_name : String
  date : String
  season : String
  course : String
  gross_score : ℤ
  stableford_score : ℤ
  rp_earned : ℚ
  new_handicap : ℚ
  notes : String
  clean_sheet : Bool
  hole_in_one : Bool
  is_rivalry : Bool
deriving DecidableEq, Repr

/-- `group_key` of src/logic.py `resolve_tie_via_head_to_head`:
`match_group_id` with missing values filled by `date + course`.  The model
always carries a `match_group_id` column, so the legacy
`groupby(['date','course'])` branch is unreachable. -/
def groupKey (r : Round) : String :=
  r.match_group_id.getD (r.date ++ r.course)

/-- `h2h_wins[w] += 1` of src/logic.py: bump the tally of candidate `w`. -/
def bumpWins (m : List (String × ℕ)) (w : String) : List (String × ℕ) :=
  m.map (fun e => if e.1 = w then (e.1, e.2 + 1) else e)

/-- The body of the `for _, group in grouped` loop of
`resolve_tie_via_head_to_head`: carries `(h2h_wins, matches_found)`. -/
def h2hStep (tied : List String) (st : List (String × ℕ) × Bool)
    (g : List Round) : List (String × ℕ) × Bool :=
  let players_in_round := g.map (fun r => r.player_name)
  let candidates_present := tied.filter (fun p => p ∈ players_in_round)
  if 2 ≤ candidates_present.length then
    let round_scores := g.filter (fun r => r.player_name ∈ candidates_present)
    let max_score :=
      ((round_scores.map (fun r => r.stableford_score)).max?).getD 0
    let round_winners :=
      (round_scores.filter (fun r => r.stableford_score = max_score)).map
        (fun r => r.player_name)
    (round_winners.foldl bumpWins st.1, true)
  else st

/-- src/logic.py `resolve_tie_via_head_to_head`.  The first component
models the Python return value `None` / single name / list of names.
Pandas `groupby` is modelled by enumerating the distinct group keys and
filtering; the enumeration order differs from the sorted pandas order, but
every consumer of the loop state is order-independent (win tallies
commute). -/
def resolve_tie_via_head_to_head (tied : List String)
    (history : List Round) : Option (String ⊕ List String) × String :=
  match tied with
  | [t] => (some (Sum.inl t), "Clear Winner")
  | [] => (none, "No Candidates")
  | _ =>
    if history.isEmpty then (some (Sum.inr tied), "No History")
    else
      let keys := (history.map groupKey).dedup
      let groups := keys.map (fun k => history.filter (fun r => groupKey r = k))
      let st := groups.foldl (h2hStep tied)
        ((tied.dedup).map (fun n => (n, 0)), false)
      if st.2 = false then
        (some (Sum.inr tied), "Tie Unresolved (Never played together)")
      else
        let max_wins := (st.1.map (fun e => e.2)).foldl max 0
        let best := (st.1.filter (fun e => e.2 = max_wins)).map (fun e => e.1)
        match best with
        | [b] => (some (Sum.inl b), "Won H2H (" ++ toString max_wins
            ++ " wins)")
        | _ => (some (Sum.inr best), "Tie Unresolved (Equal H2H record)")

/-- One row of the `players` table (src/database.py `init_db`). -/
structure Player where
  name : String
  handicap : ℚ
  starting_handicap : ℚ
  total_rp : ℚ
  rounds_played : ℤ
  wins : ℤ
deriving DecidableEq, Repr

/-- The two tables touched by the modelled src/database.py operations. -/
structure DBState where
  players : List Player
  rounds : List Round
deriving DecidableEq, Repr

/-- src/database.py `save_round`: insert the round row, then
`UPDATE players SET handicap = ?, total_rp = total_rp + ?,
rounds_played = rounds_played + 1 WHERE name = ?`. -/
def save_round (db : DBState) (player date season course : String)
    (gross stbl : ℤ) (rp : ℚ) (new_hcp : ℚ) (notes : String)
    (clean : Bool := false) (hio : Bool := false) (rivalry : Bool := false)
    (match_group_id : Option String := none) : DBState :=
  { players := db.players.map (fun pl =>
      if pl.name = player then
        { pl with
          handicap := new_hcp
          total_rp := pl.total_rp + rp
          rounds_played := pl.rounds_played + 1 }
      else pl)
    rounds := db.rounds ++ [⟨match_group_id, player, date, season, course,
      gross, stbl, rp, new_hcp, notes, clean, hio, rivalry⟩] }

/-- The loop body of src/database.py `delete_round_group`:
`UPDATE players SET total_rp = total_rp - ?, rounds_played =
rounds_played - 1 WHERE name = ?` for one affected round row. -/
def revertRound (ps : List Player) (r : Round) : List Player :=
  ps.map (fun pl =>
    if pl.name = r.player_name then
      { pl with
        total_rp := pl.total_rp - r.rp_earned
        rounds_played := pl.rounds_played - 1 }
    else pl)

/-- src/database.py `delete_round_group`: revert `total_rp` and
`rounds_played` for each affected row, then delete the rows.  SQL
`match_group_id = ?` never matches a NULL group id, which the `Option`
equality reproduces. -/
def delete_round_group (db : DBState) (mgid : String) : DBState :=
  let affected := db.rounds.filter (fun r => r.match_group_id = some mgid)
  { players := affected.foldl revertRound db.players
    rounds := db.rounds.filter (fun r => ¬ (r.match_group_id = some mgid)) }

/-- src/database.py `has_played_2v2`:
`count(*) FROM rounds WHERE player_name = ? AND is_rivalry = 1` is positive. -/
def has_played_2v2 (db : DBState) (player_name : String) : Bool :=
  0 < (db.rounds.filter (fun r =>
    r.player_name = player_name ∧ r.is_rivalry = true)).length

/-- The arguments of one `save_round` call of a submission batch. -/
structure SaveArgs where
  player : String
  date : String
  season : String
  course : String
  gross : ℤ
  stbl : ℤ
  rp : ℚ
  new_hcp : ℚ
  notes : String
  clean : Bool
  hio : Bool
  rivalry : Bool
deriving DecidableEq, Repr

/-- A whole submission: the `save_round` calls of one match group, executed
in order with the shared `match_group_id` (src/app.py submission handlers). -/
def saveGroup (db : DBState) (gid : String) (args : List SaveArgs) : DBState :=
  args.foldl (fun d a =>
    save_round d a.player a.date a.season a.course a.gross a.stbl a.rp
      a.new_hcp a.notes a.clean a.hio a.rivalry (some gid)) db

/-- The 2v2 Alliance submission handler of src/app.py (Submit tab): outcome
from holes won, fixed win/loss stakes, Duo Debut lookup against the
pre-submission rounds table, then one `save_round` per winner and per
loser.  The handler reads each player's current handicap from the players
dataframe (`iloc[0]`, modelled as the first matching row, defaulting to 0,
which the UI cannot reach). -/
def submit2v2 (db : DBState) (d_date d_season : String)
    (team_a team_b : List String) (ha hb : ℤ) (batch_id : String) : DBState :=
  let res_code := if ha > hb then "A" else if hb > ha then "B" else "Tie"
  let win_rp : ℤ := if res_code ≠ "Tie" then 5 else 0
  let lose_rp : ℤ := if res_code ≠ "Tie" then -5 else 0
  let winners := if res_code = "A" then team_a
    else if res_code = "B" then team_b else team_a ++ team_b
  let losers := if res_code = "A" then team_b
    else if res_code = "B" then team_a else []
  let debut : String → ℤ :=
    fun p => if has_played_2v2 db p then 0 else 5
  let hcpOf : String → ℚ := fun p =>
    ((db.players.find? (fun pl => pl.name = p)).map
      (fun pl => pl.handicap)).getD 0
  let score : String → ℤ := fun p => if p ∈ team_a then ha else hb
  let db1 := winners.foldl (fun d p =>
    let note := (if res_code ≠ "Tie" then
        "Alliance Win (+" ++ toString win_rp ++ ")" else "Alliance Tie")
      ++ (if ¬ (debut p = 0) then ", Duo Debut (+5)" else "")
    save_round d p d_date d_season "2v2 Match" (score p) 0
      ((win_rp + debut p : ℤ) : ℚ) (hcpOf p) note false false true
      (some batch_id)) db
  losers.foldl (fun d p =>
    let note := "Alliance Loss (" ++ toString lose_rp ++ ")"
      ++ (if ¬ (debut p = 0) then ", Duo Debut (+5)" else "")
    save_round d p d_date d_season "2v2 Match" (score p) 0
      ((lose_rp + debut p : ℤ) : ℚ) (hcpOf p) note false false true
      (some batch_id)) db1

/-- Formalisation of the phrase "the notes contain `(Tie)`" for a single
note token: the winner-of-day note carries the tie marker exactly when it
starts with `Winner of Day (Tie)`. -/
def noteTieMarked (note : String) : Bool :=
  "Winner of Day (Tie)".data.isPrefixOf note.data

/-- The observable state C7 talks about: each player's name, `total_rp`
and `rounds_played`. -/
def projRP (ps : List Player) : List (String × ℚ × ℤ) :=
  ps.map (fun p => (p.name, p.total_rp, p.rounds_played))

/-- The player fields `delete_round_group` never writes: name, handicap,
starting handicap, wins. -/
def projFrame (ps : List Player) : List (String × ℚ × ℚ × ℤ) :=
  ps.map (fun p => (p.name, p.handicap, p.starting_handicap, p.wins))

/-- Total `rp_earned` of the rounds of one player within a round list. -/
def subSum (rs : List Round) (n : String) : ℚ :=
  ((rs.filter (fun r => r.player_name = n)).map (fun r => r.rp_earned)).sum

/-- Number of rounds of one player within a round list, as an integer. -/
def subCnt (rs : List Round) (n : String) : ℤ :=
  ((rs.filter (fun r => r.player_name = n)).length : ℤ)

/-- Players with the contribution of the `match_group_id`-tagged rounds
backed out: the quantity `delete_round_group` is meant to restore. -/
def obsRP (db : DBState) (gid : String) : List (String × ℚ × ℤ) :=
  db.players.map (fun p =>
    (p.name,
     p.total_rp
       - subSum (db.rounds.filter (fun r => r.match_group_id = some gid))
           p.name,
     p.rounds_played
       - subCnt (db.rounds.filter (fun r => r.match_group_id = some gid))
           p.name))

/-- Rounding to the nearest IEEE binary64 value, as a map on rationals:
the significand is cut to 53 bits with ties to even (`pyRound` is exactly
round-half-to-even).  Models the precision of the SQLite REAL column
`players.total_rp` and of Python floats in the normal range; overflow and
subnormals, unreachable at league scale, are not modelled, and zero maps
to zero. -/
def fl (q : ℚ) : ℚ :=
  if q = 0 then 0
  else (pyRound (q * 2 ^ ((52 : ℤ) - Int.log 2 |q|)) : ℚ)
    / 2 ^ ((52 : ℤ) - Int.log 2 |q|)

/-- Refinement of `save_round` (src/database.py) at the precision of the
REAL column: `total_rp = total_rp + ?` is computed in binary64, so the sum
is rounded by `fl`.  The inserted row and the integer column
`rounds_played` are exact. -/
def save_roundReal (db : DBState) (player date season course : String)
    (gross stbl : ℤ) (rp : ℚ) (new_hcp : ℚ) (notes : String)
    (clean : Bool := false) (hio : Bool := false) (rivalry : Bool := false)
    (match_group_id : Option String := none) : DBState :=
  { players := db.players.map (fun pl =>
      if pl.name = player then
        { pl with
          handicap := new_hcp
          total_rp := fl (pl.total_rp + rp)
          rounds_played := pl.rounds_played + 1 }
      else pl)
    rounds := db.rounds ++ [⟨match_group_id, player, date, season, course,
      gross, stbl, rp, new_hcp, notes, clean, hio, rivalry⟩] }

/-- The loop body of `delete_round_group` (src/database.py) at REAL
precision: `total_rp = total_rp - ?` rounds the difference by `fl`. -/
def revertRoundReal (ps : List Player) (r : Round) : List Player :=
  ps.map (fun pl =>
    if pl.name = r.player_name then
      { pl with
        total_rp := fl (pl.total_rp - r.rp_earned)
        rounds_played := pl.rounds_played - 1 }
    else pl)

/-- Refinement of `delete_round_group` (src/database.py) at the precision
of the REAL column. -/
def delete_round_groupReal (db : DBState) (mgid : String) : DBState :=
  let affected := db.rounds.filter (fun r => r.match_group_id = some mgid)
  { players := affected.foldl revertRoundReal db.players
    rounds := db.rounds.filter (fun r => ¬ (r.match_group_id = some mgid)) }

/-- A whole submission executed through `save_roundReal`. -/
def saveGroupReal (db : DBState) (gid : String) (args : List SaveArgs) :
    DBState :=
  args.foldl (fun d a =>
    save_roundReal d a.player a.date a.season a.course a.gross a.stbl a.rp
      a.new_hcp a.notes a.clean a.hio a.rivalry (some gid)) db

/-- Each player's name and `rounds_played` (the INTEGER column, exact at
any precision). -/
def projCnt (ps : List Player) : List (String × ℤ) :=
  ps.map (fun p => (p.name, p.rounds_played))

/-- Players with the round count of the `match_group_id`-tagged rounds
backed out. -/
def obsCnt (db : DBState) (gid : String) : List (String × ℤ) :=
  db.players.map (fun p =>
    (p.name, p.rounds_played
      - subCnt (db.rounds.filter (fun r => r.match_group_id = some gid))
          p.name))

section RoundingLemmas

/-- Unfolding equation for `pyRound` with the local bindings substituted. -/
theorem pyRound_def (q : ℚ) : pyRound q =
    (if q - ⌊q⌋ < 1/2 then ⌊q⌋
     else if 1/2 < q - ⌊q⌋ then ⌊q⌋ + 1
     else if ⌊q⌋ % 2 = 0 then ⌊q⌋ else ⌊q⌋ + 1) := rfl

/-- `pyRound` commutes with translation by an even integer (the tie-to-even
branch is parity-invariant under even shifts). -/
theorem pyRound_add_two_mul (q : ℚ) (k : ℤ) :
    pyRound (q + (2 * k : ℤ)) = pyRound q + 2 * k := by
  rw [pyRound_def, pyRound_def]
  have hfl : ⌊q + ((2 * k : ℤ) : ℚ)⌋ = ⌊q⌋ + 2 * k := Int.floor_add_int q (2 * k)
  rw [hfl]
  have hr : q + ((2 * k : ℤ) : ℚ) - ((⌊q⌋ + 2 * k : ℤ) : ℚ) = q - (⌊q⌋ : ℚ) := by
    push_cast; ring
  rw [hr]
  have hpar : (⌊q⌋ + 2 * k) % 2 = ⌊q⌋ % 2 := by omega
  rw [hpar]
  split_ifs <;> ring

/-- `roundTo1` commutes with translation by an integer. -/
theorem roundTo1_add_int (q : ℚ) (k : ℤ) :
    roundTo1 (q + (k : ℚ)) = roundTo1 q + (k : ℚ) := by
  unfold roundTo1
  have h10 : 10 * (q + (k : ℚ)) = 10 * q + ((2 * (5 * k) : ℤ) : ℚ) := by
    push_cast; ring
  rw [h10, pyRound_add_two_mul]
  push_cast; ring

/-- `pyRound` never rounds below the floor. -/
theorem pyRound_ge_floor (q : ℚ) : ⌊q⌋ ≤ pyRound q := by
  rw [pyRound_def]
  split_ifs <;> omega

/-- `roundTo1` of a nonnegative rational is nonnegative. -/
theorem roundTo1_nonneg {q : ℚ} (h : 0 ≤ q) : 0 ≤ roundTo1 q := by
  unfold roundTo1
  have h1 : (0 : ℤ) ≤ ⌊10 * q⌋ := Int.floor_nonneg.mpr (by linarith)
  have h2 : (0 : ℤ) ≤ pyRound (10 * q) := le_trans h1 (pyRound_ge_floor _)
  have : (0 : ℚ) ≤ (pyRound (10 * q) : ℚ) := by exact_mod_cast h2
  linarith

/-- The band delta applied by `calculate_new_handicap` before rounding. -/
def hcpDelta (current_hcp : ℚ) (stableford_score : ℤ) : ℤ :=
  if current_hcp > 36 ∧ stableford_score > 36 then 36 - stableford_score
  else if stableford_score ≥ 40 then -2
  else if 37 ≤ stableford_score ∧ stableford_score ≤ 39 then -1
  else if 27 ≤ stableford_score ∧ stableford_score ≤ 36 then 0
  else 1

/-- Unfolding equation for `calculate_new_handicap`: the unused
`playing_hcp` binding drops and the rounding applies to the selected band
value. -/
theorem calculate_new_handicap_def (h : ℚ) (s : ℤ) (aw p70 : Bool) :
    calculate_new_handicap h s aw p70 = roundTo1
      (if h > 36 ∧ s > 36 then h - ((s : ℚ) - 36)
       else if s ≥ 40 then h - 2
       else if 37 ≤ s ∧ s ≤ 39 then h - 1
       else if 27 ≤ s ∧ s ≤ 36 then h
       else h + 1) := rfl

/-- `calculate_new_handicap` is `roundTo1` of the current handicap shifted
by an integer band delta; since `roundTo1` commutes with integer shifts the
rounding can be pulled out. -/
theorem calculate_new_handicap_eq (h : ℚ) (s : ℤ) (aw p70 : Bool) :
    calculate_new_handicap h s aw p70
      = roundTo1 h + (hcpDelta h s : ℚ) := by
  rw [calculate_new_handicap_def]
  unfold hcpDelta
  have key : ∀ d : ℤ, roundTo1 (h + (d : ℚ)) = roundTo1 h + (d : ℚ) :=
    fun d => roundTo1_add_int h d
  split_ifs with h1 h2 h3 h4
  · have hb : h - ((s : ℚ) - 36) = h + ((36 - s : ℤ) : ℚ) := by
      push_cast; ring
    rw [hb, key]
  · have hb : h - 2 = h + ((-2 : ℤ) : ℚ) := by push_cast; ring
    rw [hb, key]
  · have hb : h - 1 = h + ((-1 : ℤ) : ℚ) := by push_cast; ring
    rw [hb, key]
  · have hb : h = h + ((0 : ℤ) : ℚ) := by push_cast; ring
    rw [hb, key]; push_cast; ring
  · have hb : h + 1 = h + ((1 : ℤ) : ℚ) := by push_cast; ring
    rw [hb, key]

end RoundingLemmas

/-- C1 (amended): for every stableford score below the target 36, the
performance term of `calculate_rp` is a nearest integer to `diff / 2`
(`diff = stableford - target`), with an exact fractional `.5` resolved to
the even neighbour (Python 3 banker's rounding, not rounding away from
zero); in particular `diff = -9` yields `-4`. -/
theorem C1_perf_rounds_half_to_even :
    (∀ s : ℤ, s < 36 → ∃ k : ℤ,
      (calculate_rp s false false 0).1 = (k : ℚ) ∧
      ((s - 36) % 2 = 0 → 2 * k = s - 36) ∧
      ((s - 36) % 2 ≠ 0 →
        (2 * k - (s - 36) = 1 ∨ 2 * k - (s - 36) = -1) ∧ k % 2 = 0)) ∧
    (calculate_rp 27 false false 0).1 = -4 := by
  have hhalf : ∀ m : ℤ, pyRound ((m : ℚ) + 1 / 2)
      = if m % 2 = 0 then m else m + 1 := by
    intro m
    rw [pyRound_def]
    have hfl : ⌊(m : ℚ) + 1 / 2⌋ = m := by
      rw [add_comm, Int.floor_add_int]
      norm_num
    rw [hfl]
    have hr : (m : ℚ) + 1 / 2 - (m : ℚ) = 1 / 2 := by ring
    rw [hr]
    norm_num
  constructor
  · intro s hs
    refine ⟨rpBase s, ?_, ?_, ?_⟩
    · show (rpBase s : ℚ) + 0 + (if false then 2 else 0)
        + (if false then 10 else 0) = (rpBase s : ℚ)
      norm_num
    · intro heven
      obtain ⟨m, hm⟩ : ∃ m : ℤ, s - 36 = 2 * m := ⟨(s - 36) / 2, by omega⟩
      unfold rpBase
      rw [if_neg (by omega : ¬ s ≥ 36), hm]
      have hq : ((2 * m : ℤ) : ℚ) / 2 = (m : ℚ) := by push_cast; ring
      rw [hq, pyRound_def, Int.floor_intCast]
      norm_num
    · intro hodd
      obtain ⟨m, hm⟩ : ∃ m : ℤ, s - 36 = 2 * m + 1 := ⟨(s - 36) / 2, by omega⟩
      unfold rpBase
      rw [if_neg (by omega : ¬ s ≥ 36), hm]
      have hq : ((2 * m + 1 : ℤ) : ℚ) / 2 = (m : ℚ) + 1 / 2 := by
        push_cast; ring
      rw [hq, hhalf]
      by_cases hpar : m % 2 = 0
      · rw [if_pos hpar]; omega
      · rw [if_neg hpar]; omega
  · show (rpBase 27 : ℚ) + 0 + (if false then 2 else 0)
      + (if false then 10 else 0) = -4
    unfold rpBase
    rw [if_neg (by omega : ¬ (27 : ℤ) ≥ 36)]
    have hq : (((27 : ℤ) - 36 : ℤ) : ℚ) / 2 = ((-5 : ℤ) : ℚ) + 1 / 2 := by
      norm_num
    rw [hq, hhalf]
    norm_num

/-- Witness for C1 at the claim's own example `stableford = 27`
(`diff = -9`). -/
theorem C1_witness :
    ((27 : ℤ) < 36) ∧ ∃ k : ℤ,
      (calculate_rp 27 false false 0).1 = (k : ℚ) ∧
      (((27 : ℤ) - 36) % 2 = 0 → 2 * k = 27 - 36) ∧
      (((27 : ℤ) - 36) % 2 ≠ 0 →
        (2 * k - (27 - 36) = 1 ∨ 2 * k - (27 - 36) = -1) ∧ k % 2 = 0) :=
  ⟨by decide, C1_perf_rounds_half_to_even.1 27 (by decide)⟩

/-- Counterexample to C1 as stated: the claim predicts a performance term
of `-5` for `diff = -9` (rounding the fractional `.5` away from zero), but
`calculate_rp` uses Python banker's rounding and yields `-4`. -/
theorem C1_counterexample :
    (calculate_rp 27 false false 0).1 = -4 ∧ ((-4 : ℚ) ≠ -5) := by
  refine ⟨?_, by norm_num⟩
  show (rpBase 27 : ℚ) + 0 + (if false then 2 else 0)
    + (if false then 10 else 0) = -4
  unfold rpBase
  rw [if_neg (by omega : ¬ (27 : ℤ) ≥ 36), pyRound_def]
  norm_num

/-- C2 (amended): `calculate_new_handicap` applies its band deltas with no
floor at 0; the result is guaranteed nonnegative when the current handicap
is at least 2 and the stableford score is at most 60 (the submission form's
upper bound). -/
theorem C2_nonneg_when_handicap_large_enough :
    ∀ (h : ℚ) (s : ℤ) (aw p70 : Bool), 2 ≤ h → s ≤ 60 →
      0 ≤ calculate_new_handicap h s aw p70 := by
  intro h s aw p70 hh hs
  rw [calculate_new_handicap_def]
  apply roundTo1_nonneg
  have hs60 : (s : ℚ) ≤ 60 := by exact_mod_cast hs
  split_ifs with h1 h2 h3 h4
  · linarith [h1.1]
  · linarith
  · linarith
  · linarith
  · linarith

/-- Witness for C2 (amended) at `current_handicap = 18`,
`stableford = 40`. -/
theorem C2_witness :
    ((2 : ℚ) ≤ 18) ∧ ((40 : ℤ) ≤ 60) ∧
      0 ≤ calculate_new_handicap 18 40 false false :=
  ⟨by decide, by decide,
    C2_nonneg_when_handicap_large_enough 18 40 false false (by decide)
      (by decide)⟩

/-- Counterexample to C2 as stated: `current_handicap = 0 ≥ 0` with
`stableford = 40` returns `-2.0 < 0`; the source never clamps the result
at 0. -/
theorem C2_counterexample :
    ((0 : ℚ) ≤ 0) ∧ calculate_new_handicap 0 40 false false = -2 ∧
      ¬ (0 ≤ calculate_new_handicap 0 40 false false) := by
  have hval : calculate_new_handicap 0 40 false false = -2 := by
    rw [calculate_new_handicap_def]
    norm_num
    unfold roundTo1
    rw [pyRound_def]
    norm_num
  exact ⟨le_refl 0, hval, by rw [hval]; norm_num⟩

/-- C8: for a fixed current handicap (and fixed away-game flags),
`calculate_new_handicap` is monotonically non-increasing in the stableford
score. -/
theorem C8_new_handicap_antitone :
    ∀ (h : ℚ) (s1 s2 : ℤ) (aw p70 : Bool), s1 ≤ s2 →
      calculate_new_handicap h s2 aw p70
        ≤ calculate_new_handicap h s1 aw p70 := by
  intro h s1 s2 aw p70 h12
  rw [calculate_new_handicap_eq, calculate_new_handicap_eq]
  have key : hcpDelta h s2 ≤ hcpDelta h s1 := by
    unfold hcpDelta
    by_cases hh : h > 36
    · simp only [hh, true_and]
      split_ifs <;> omega
    · simp only [eq_false hh, false_and, if_false]
      split_ifs <;> omega
  have keyq : (hcpDelta h s2 : ℚ) ≤ (hcpDelta h s1 : ℚ) := by
    exact_mod_cast key
  linarith

/-- Witness for C8 at `h = 10`, scores `30 ≤ 40`. -/
theorem C8_witness :
    ((30 : ℤ) ≤ 40) ∧
      calculate_new_handicap 10 40 false false
        ≤ calculate_new_handicap 10 30 false false :=
  ⟨by decide, C8_new_handicap_antitone 10 30 40 false false (by decide)⟩

/-- C5: `calculate_rivalry_1v1` awards the win on strictly fewer strokes
(stakes 10 for the underdog winner, else 5), breaks stroke ties in favour
of the strictly higher handicap at stakes 10, and declares an absolute tie
with 0 stakes when strokes and handicaps are both equal. -/
theorem C5_rivalry_cases :
    ∀ (s1 s2 : ℤ) (h1 h2 : ℚ),
      (s1 < s2 → calculate_rivalry_1v1 s1 s2 h1 h2
        = ("p1", if h1 > h2 then 10 else 5, "Lower Strokes")) ∧
      (s2 < s1 → calculate_rivalry_1v1 s1 s2 h1 h2
        = ("p2", if h2 > h1 then 10 else 5, "Lower Strokes")) ∧
      (s1 = s2 → h2 < h1 → calculate_rivalry_1v1 s1 s2 h1 h2
        = ("p1", 10, "Tie-Breaker (Underdog)")) ∧
      (s1 = s2 → h1 < h2 → calculate_rivalry_1v1 s1 s2 h1 h2
        = ("p2", 10, "Tie-Breaker (Underdog)")) ∧
      (s1 = s2 → h1 = h2 → calculate_rivalry_1v1 s1 s2 h1 h2
        = ("tie", 0, "Absolute Tie")) := by
  intro s1 s2 h1 h2
  refine ⟨?_, ?_, ?_, ?_, ?_⟩
  · intro hlt
    simp [calculate_rivalry_1v1, rivalryWinner, hlt]
  · intro hlt
    simp [calculate_rivalry_1v1, rivalryWinner, hlt, not_lt_of_gt hlt]
  · intro hs hcp
    subst hs
    simp [calculate_rivalry_1v1, rivalryWinner, lt_irrefl, hcp]
  · intro hs hcp
    subst hs
    simp [calculate_rivalry_1v1, rivalryWinner, lt_irrefl, hcp,
      not_lt_of_gt hcp]
  · intro hs hcp
    subst hs
    subst hcp
    simp [calculate_rivalry_1v1, rivalryWinner, lt_irrefl]

/-- Witness for C5 at the spec's scenario: strokes 78 vs 82, handicaps 10
vs 15 (favourite wins, stakes 5). -/
theorem C5_witness :
    calculate_rivalry_1v1 78 82 10 15
      = ("p1", if (10 : ℚ) > 15 then 10 else 5, "Lower Strokes") :=
  (C5_rivalry_cases 78 82 10 15).1 (by decide)

/-- C3: a 1-player cohort with stableford 40 and no bonus flags earns
participation +2 plus performance +8 = 10 RP, and the handicap drops from
18.0 to 16.0. -/
theorem C3_solo_forty :
    calculate_group_bonuses [⟨"X", 40, 18, false, false, false⟩] (fun _ => 0)
      = [("X", ⟨10, "Stbl Perf (+8), Part (+2)", 16⟩)] ∧
    calculate_new_handicap 18 40 = 16 := by
  constructor
  · norm_num [calculate_group_bonuses, groupWinners, groupHighest,
      groupWodShare, groupPotSize, groupEntry, playerBonuses, calculate_rp,
      rpBase, rpBaseNote, calculate_new_handicap_def, roundTo1, pyRound_def]
    decide
  · norm_num [calculate_new_handicap_def, roundTo1, pyRound_def]

section WinnerOfDay

/-- A list cannot have a prefix that differs from it at some index. -/
theorem not_prefix_of_getElem_ne {i : ℕ} {a b : Char} {p l : List Char}
    (hp : p[i]? = some a) (hl : l[i]? = some b) (hab : ¬ a = b) :
    p.isPrefixOf l = false := by
  rw [Bool.eq_false_iff]
  intro hpre
  rw [ List.isPrefixOf_iff_prefix] at hpre
  obtain ⟨t, ht⟩ := hpre
  have hlen : i < p.length := by
    by_contra hcon
    rw [List.getElem?_eq_none (le_of_not_lt hcon)] at hp
    cases hp
  apply hab
  have h1 : l[i]? = p[i]? := by
    rw [← ht, List.getElem?_append_left hlen]
  rw [h1, hp] at hl
  exact Option.some.inj hl

/-- The tied winner-of-day note is tie-marked, whatever the share prints
as. -/
theorem noteTieMarked_wodTie (f : String) :
    noteTieMarked ("Winner of Day (Tie) (+" ++ f ++ ")") = true := by
  unfold noteTieMarked
  rw [ List.isPrefixOf_iff_prefix, String.data_append, String.data_append]
  refine ⟨' ' :: '(' :: '+' :: (f.data ++ [')']), ?_⟩
  simp

/-- The sole-winner note is not tie-marked, whatever the share prints as. -/
theorem noteTieMarked_wodNoTie (f : String) :
    noteTieMarked ("Winner of Day (+" ++ f ++ ")") = false := by
  unfold noteTieMarked
  rw [String.data_append, String.data_append]
  apply not_prefix_of_getElem_ne (i := 15) (a := 'T') (b := '+')
  · decide
  · rw [List.append_assoc,
      List.getElem?_append_left
        (by decide : 15 < "Winner of Day (+".data.length)]
    decide
  · decide

/-- Giant-slayer notes are never tie-marked. -/
theorem noteTieMarked_slayer (s : String) :
    noteTieMarked ("Giant Slayer (+" ++ s ++ ")") = false := by
  unfold noteTieMarked
  rw [String.data_append, String.data_append]
  apply not_prefix_of_getElem_ne (i := 0) (a := 'W') (b := 'G')
  · decide
  · rw [List.append_assoc,
      List.getElem?_append_left
        (by decide : 0 < "Giant Slayer (+".data.length)]
    decide
  · decide

/-- Participation notes are never tie-marked. -/
theorem noteTieMarked_part : noteTieMarked "Part (+2)" = false := by decide

/-- Road-warrior notes are never tie-marked. -/
theorem noteTieMarked_rw : noteTieMarked "Road Warrior (+2)" = false := by
  decide

/-- A running maximum over stableford scores is the seed or is attained. -/
theorem foldl_max_stbl (l : List GroupPlayer) (a : ℤ) :
    (l.foldl (fun acc p => max acc p.stbl) a) = a ∨
      ∃ p ∈ l, (l.foldl (fun acc p => max acc p.stbl) a) = p.stbl := by
  induction l generalizing a with
  | nil => exact Or.inl rfl
  | cons q t ih =>
    simp only [List.foldl_cons]
    rcases ih (max a q.stbl) with h | ⟨p, hp, hval⟩
    · rcases max_choice a q.stbl with hm | hm
      · exact Or.inl (by rw [h, hm])
      · exact Or.inr ⟨q, List.mem_cons_self q t, by rw [h, hm]⟩
    · exact Or.inr ⟨p, List.mem_cons_of_mem q hp, hval⟩

/-- A nonempty cohort always has at least one winner of the day. -/
theorem groupWinners_ne_nil (g0 : GroupPlayer) (rest : List GroupPlayer) :
    groupWinners g0 (g0 :: rest) ≠ [] := by
  unfold groupWinners groupHighest
  rcases foldl_max_stbl (g0 :: rest) g0.stbl with h | ⟨p, hp, hval⟩
  · intro hnil
    have hmem : g0 ∈ List.filter
        (fun p => decide
          (p.stbl = (g0 :: rest).foldl (fun a p => max a p.stbl) g0.stbl))
        (g0 :: rest) := by
      rw [List.mem_filter]
      exact ⟨List.mem_cons_self g0 rest, by simp [h]⟩
    rw [hnil] at hmem
    cases hmem
  · intro hnil
    have hmem : p ∈ List.filter
        (fun q => decide
          (q.stbl = (g0 :: rest).foldl (fun a p => max a p.stbl) g0.stbl))
        (g0 :: rest) := by
      rw [List.mem_filter]
      exact ⟨hp, by simp [hval]⟩
    rw [hnil] at hmem
    cases hmem

/-- The pot of a cohort of at least two players is positive. -/
theorem groupPotSize_pos {n : ℕ} (hn : 2 ≤ n) : 0 < groupPotSize n := by
  unfold groupPotSize
  split_ifs with h1 h2 h3
  · norm_num
  · norm_num
  · norm_num
  · omega

/-- The winner-of-day shares of all tied winners sum back to the pot: the
pot is split evenly. -/
theorem winners_share_sums_to_pot (g0 : GroupPlayer)
    (rest : List GroupPlayer) :
    ((groupWinners g0 (g0 :: rest)).length : ℚ) * groupWodShare g0 (g0 :: rest)
      = if 2 ≤ (g0 :: rest).length then groupPotSize (g0 :: rest).length
        else 0 := by
  have hlenpos : 0 < (groupWinners g0 (g0 :: rest)).length :=
    List.length_pos.mpr (groupWinners_ne_nil g0 rest)
  have hlenne : ((groupWinners g0 (g0 :: rest)).length : ℚ) ≠ 0 := by
    exact_mod_cast Nat.pos_iff_ne_zero.mp hlenpos
  unfold groupWodShare
  by_cases hc : 2 ≤ (g0 :: rest).length
  · rw [if_pos ⟨hc, groupPotSize_pos hc⟩, if_pos hc]
    field_simp
  · rw [if_neg (by tauto), if_neg hc]
    ring

/-- A cohort member's note list carries a tie-marked winner-of-day note
exactly when the member is a winner and the win is shared. -/
theorem playerBonuses_tie_iff (g0 : GroupPlayer) (rest : List GroupPlayer)
    (st : String → ℚ) (p : GroupPlayer) :
    ((playerBonuses (g0 :: rest) st
        ((groupWinners g0 (g0 :: rest)).map (fun w => w.name))
        (groupWodShare g0 (g0 :: rest))
        (decide (1 < (groupWinners g0 (g0 :: rest)).length))
        (g0 :: rest).length p).2.any noteTieMarked = true
      ↔ (p.name ∈ (groupWinners g0 (g0 :: rest)).map (fun w => w.name)
          ∧ 1 < (groupWinners g0 (g0 :: rest)).length)) := by
  have hle : (groupWinners g0 (g0 :: rest)).length ≤ (g0 :: rest).length :=
    List.length_filter_le _ _
  simp only [playerBonuses, List.any_append, List.any_cons, List.any_nil,
    Bool.or_false, decide_eq_true_eq]
  by_cases hwod : p.name ∈ (groupWinners g0 (g0 :: rest)).map (fun w => w.name)
      ∧ 2 ≤ (g0 :: rest).length
  · rw [if_pos hwod]
    by_cases htie : 1 < (groupWinners g0 (g0 :: rest)).length
    · rw [if_pos htie]
      simp [noteTieMarked_wodTie, hwod.1, htie, noteTieMarked_part]
    · rw [if_neg htie]
      simp [noteTieMarked_part, noteTieMarked_wodNoTie,
        noteTieMarked_slayer, noteTieMarked_rw, htie]
  · rw [if_neg hwod]
    have hrhs : ¬ (p.name ∈ List.map (fun w => w.name)
        (groupWinners g0 (g0 :: rest)) ∧
        1 < (groupWinners g0 (g0 :: rest)).length) := by
      rintro ⟨hm, hl⟩
      exact hwod ⟨hm, by omega⟩
    split_ifs <;>
      exact iff_of_false
        (by simp [noteTieMarked_part, noteTieMarked_slayer, noteTieMarked_rw])
        hrhs

end WinnerOfDay

set_option maxRecDepth 4000 in
/-- C4: the winner-of-day pot is 2 for a 2-player cohort, 4 for 3 players
and 6 for 4 or more; the winners' shares multiply back to the pot (even
split); a member's notes carry the `(Tie)` marker exactly when the member
is one of several tied winners; and a 4-player group with two tied at the
top splits the pot of 6 as 3 and 3. -/
theorem C4_winner_of_day_pot :
    (groupPotSize 2 = 2 ∧ groupPotSize 3 = 4 ∧
      ∀ n : ℕ, 4 ≤ n → groupPotSize n = 6) ∧
    (∀ (g0 : GroupPlayer) (rest : List GroupPlayer),
      ((groupWinners g0 (g0 :: rest)).length : ℚ)
          * groupWodShare g0 (g0 :: rest)
        = if 2 ≤ (g0 :: rest).length then groupPotSize (g0 :: rest).length
          else 0) ∧
    (∀ (g0 : GroupPlayer) (rest : List GroupPlayer) (st : String → ℚ)
        (p : GroupPlayer),
      ((playerBonuses (g0 :: rest) st
          ((groupWinners g0 (g0 :: rest)).map (fun w => w.name))
          (groupWodShare g0 (g0 :: rest))
          (decide (1 < (groupWinners g0 (g0 :: rest)).length))
          (g0 :: rest).length p).2.any noteTieMarked = true
        ↔ (p.name ∈ (groupWinners g0 (g0 :: rest)).map (fun w => w.name)
            ∧ 1 < (groupWinners g0 (g0 :: rest)).length))) ∧
    calculate_group_bonuses
      [⟨"A", 40, 18, false, false, false⟩, ⟨"B", 40, 20, false, false, false⟩,
       ⟨"C", 30, 22, false, false, false⟩, ⟨"D", 20, 24, false, false, false⟩]
      (fun _ => 0)
      = [("A", ⟨13, "Stbl Perf (+8), Part (+2), Winner of Day (Tie) (+3)", 16⟩),
         ("B", ⟨13, "Stbl Perf (+8), Part (+2), Winner of Day (Tie) (+3)", 18⟩),
         ("C", ⟨-1, "Stbl Perf (-3), Part (+2)", 22⟩),
         ("D", ⟨-6, "Stbl Perf (-8), Part (+2)", 25⟩)] := by
  refine ⟨⟨by norm_num [groupPotSize], by norm_num [groupPotSize],
      fun n hn => ?_⟩,
    winners_share_sums_to_pot, playerBonuses_tie_iff, ?_⟩
  · unfold groupPotSize
    rw [if_neg (by omega), if_neg (by omega), if_pos hn]
  · norm_num [calculate_group_bonuses, groupWinners, groupHighest,
      groupWodShare, groupPotSize, groupEntry, playerBonuses, calculate_rp,
      rpBase, rpBaseNote, calculate_new_handicap_def, roundTo1, pyRound_def,
      fmtG]
    norm_num [Int.fract]
    exact ⟨by decide, ⟨by rw [if_neg (by decide)]; norm_num, by decide⟩,
      by rw [if_neg (by decide)]; norm_num, by decide⟩

/-- Witness for C4: the pot of a 5-player cohort is 6. -/
theorem C4_witness : groupPotSize 5 = 6 :=
  C4_winner_of_day_pot.1.2.2 5 (by decide)

section TieResolver

/-- A round group containing fewer than two tie candidates leaves the
head-to-head loop state untouched. -/
theorem h2hStep_skip (tied : List String) (st : List (String × ℕ) × Bool)
    (g : List Round)
    (h : (tied.filter
      (fun p => p ∈ g.map (fun r => r.player_name))).length < 2) :
    h2hStep tied st g = st := by
  simp only [h2hStep]
  rw [if_neg (by omega)]

/-- If no round group contains two tie candidates, the whole head-to-head
loop leaves its state untouched. -/
theorem h2hStep_foldl_skip (tied : List String)
    (groups : List (List Round)) (st : List (String × ℕ) × Bool)
    (h : ∀ g ∈ groups, (tied.filter
      (fun p => p ∈ g.map (fun r => r.player_name))).length < 2) :
    groups.foldl (h2hStep tied) st = st := by
  induction groups generalizing st with
  | nil => rfl
  | cons g gs ih =>
    rw [List.foldl_cons, h2hStep_skip tied st g (h g (List.mem_cons_self _ _))]
    exact ih st (fun g' hg' => h g' (List.mem_cons_of_mem _ hg'))

end TieResolver

/-- C6 (amended): `resolve_tie_via_head_to_head` returns
`(None, "No Candidates")` for no candidates and
`(candidate, "Clear Winner")` for one; with two or more candidates it
returns the full original candidate list, with reason
`"Tie Unresolved (Never played together)"` when the history is nonempty
but no round group contains two of the candidates, and with reason
`"No History"` when the history is empty. -/
theorem C6_resolve_tie_edge_cases :
    (∀ history : List Round,
      resolve_tie_via_head_to_head [] history = (none, "No Candidates")) ∧
    (∀ (history : List Round) (c : String),
      resolve_tie_via_head_to_head [c] history
        = (some (Sum.inl c), "Clear Winner")) ∧
    (∀ (t1 t2 : String) (rest : List String) (history : List Round),
      history ≠ [] →
      (∀ k ∈ history.map groupKey,
        ((t1 :: t2 :: rest).filter (fun p =>
          p ∈ (history.filter (fun r => groupKey r = k)).map
            (fun r => r.player_name))).length < 2) →
      resolve_tie_via_head_to_head (t1 :: t2 :: rest) history
        = (some (Sum.inr (t1 :: t2 :: rest)),
           "Tie Unresolved (Never played together)")) ∧
    (∀ (t1 t2 : String) (rest : List String),
      resolve_tie_via_head_to_head (t1 :: t2 :: rest) []
        = (some (Sum.inr (t1 :: t2 :: rest)), "No History")) := by
  refine ⟨fun _ => rfl, fun _ _ => rfl, ?_, fun _ _ _ => rfl⟩
  intro t1 t2 rest history hne hyp
  obtain ⟨r, hs, rfl⟩ := List.exists_cons_of_ne_nil hne
  simp only [resolve_tie_via_head_to_head]
  have hfold : (((r :: hs).map groupKey).dedup.map
        (fun k => (r :: hs).filter (fun rr => groupKey rr = k))).foldl
        (h2hStep (t1 :: t2 :: rest))
        (((t1 :: t2 :: rest).dedup).map (fun n => (n, 0)), false)
      = (((t1 :: t2 :: rest).dedup).map (fun n => (n, 0)), false) := by
    apply h2hStep_foldl_skip
    intro g hg
    obtain ⟨k, hk, rfl⟩ := List.mem_map.mp hg
    exact hyp k (List.mem_dedup.mp hk)
  rw [hfold]
  simp

/-- Witness for C6: candidates A and B with a one-round history played only
by Z resolve to the unresolved tie. -/
theorem C6_witness :
    (([⟨some "g9", "Z", "2026-01-05", "S1", "C1", 80, 30, 1, 10, "x",
        false, false, false⟩] : List Round) ≠ []) ∧
    (∀ k ∈ ([⟨some "g9", "Z", "2026-01-05", "S1", "C1", 80, 30, 1, 10, "x",
        false, false, false⟩] : List Round).map groupKey,
      ((["A", "B"] : List String).filter (fun p =>
        p ∈ (([⟨some "g9", "Z", "2026-01-05", "S1", "C1", 80, 30, 1, 10, "x",
            false, false, false⟩] : List Round).filter
          (fun r => groupKey r = k)).map
            (fun r => r.player_name))).length < 2) ∧
    resolve_tie_via_head_to_head ["A", "B"]
        [⟨some "g9", "Z", "2026-01-05", "S1", "C1", 80, 30, 1, 10, "x",
          false, false, false⟩]
      = (some (Sum.inr ["A", "B"]),
         "Tie Unresolved (Never played together)") :=
  ⟨by decide, by decide,
    C6_resolve_tie_edge_cases.2.2.1 "A" "B" [] _ (by decide) (by decide)⟩

/-- Counterexample to C6 as stated: with two candidates and an empty
history the source returns the reason `"No History"`, not
`"Tie Unresolved (Never played together)"`. -/
theorem C6_counterexample :
    resolve_tie_via_head_to_head ["A", "B"] []
      = (some (Sum.inr ["A", "B"]), "No History") ∧
    ("No History" ≠ "Tie Unresolved (Never played together)") := by
  decide

section DatabaseRoundTrip

/-- `subSum` of the empty table is 0. -/
theorem subSum_nil (n : String) : subSum [] n = 0 := rfl

/-- `subCnt` of the empty table is 0. -/
theorem subCnt_nil (n : String) : subCnt [] n = 0 := rfl

/-- `subSum` unfolds one round row. -/
theorem subSum_cons (r : Round) (rs : List Round) (n : String) :
    subSum (r :: rs) n
      = (if r.player_name = n then r.rp_earned else 0) + subSum rs n := by
  by_cases h : r.player_name = n <;> simp [subSum, List.filter_cons, h]

/-- `subCnt` unfolds one round row. -/
theorem subCnt_cons (r : Round) (rs : List Round) (n : String) :
    subCnt (r :: rs) n
      = (if r.player_name = n then 1 else 0) + subCnt rs n := by
  by_cases h : r.player_name = n
  · simp [subCnt, List.filter_cons, h]
    ring
  · simp [subCnt, List.filter_cons, h]

/-- `subSum` splits over appended tables. -/
theorem subSum_append (rs1 rs2 : List Round) (n : String) :
    subSum (rs1 ++ rs2) n = subSum rs1 n + subSum rs2 n := by
  unfold subSum
  rw [List.filter_append, List.map_append, List.sum_append]

/-- `subCnt` splits over appended tables. -/
theorem subCnt_append (rs1 rs2 : List Round) (n : String) :
    subCnt (rs1 ++ rs2) n = subCnt rs1 n + subCnt rs2 n := by
  unfold subCnt
  rw [List.filter_append, List.length_append]
  push_cast
  ring

/-- Executing the reversal loop of `delete_round_group` over a list of
rounds subtracts, per player, the total rp and the count of that player's
rounds in the list. -/
theorem revertRound_foldl (rs : List Round) (ps : List Player) :
    projRP (rs.foldl revertRound ps)
      = ps.map (fun p => (p.name, p.total_rp - subSum rs p.name,
          p.rounds_played - subCnt rs p.name)) := by
  induction rs generalizing ps with
  | nil =>
    unfold projRP
    apply List.map_congr_left
    intro p _
    simp [subSum_nil, subCnt_nil]
  | cons r rs ih =>
    rw [List.foldl_cons, ih]
    unfold revertRound
    rw [List.map_map]
    apply List.map_congr_left
    intro p _
    by_cases h : p.name = r.player_name
    · simp only [Function.comp_apply, if_pos h, subSum_cons, subCnt_cons,
        if_pos h.symm, Prod.mk.injEq]
      refine ⟨trivial, by ring, by ring⟩
    · have h2 : ¬ r.player_name = p.name := fun hh => h hh.symm
      simp only [Function.comp_apply, if_neg h, subSum_cons, subCnt_cons,
        if_neg h2, Prod.mk.injEq]
      refine ⟨trivial, by ring, by ring⟩

/-- After `delete_round_group`, the observable player stats equal the
pre-deletion stats with the group's contribution backed out. -/
theorem delete_players_projRP (db : DBState) (gid : String) :
    projRP (delete_round_group db gid).players = obsRP db gid := by
  show projRP ((db.rounds.filter
      (fun r => r.match_group_id = some gid)).foldl revertRound db.players)
    = obsRP db gid
  rw [revertRound_foldl]
  rfl

/-- One `save_round` tagged with the group id leaves the backed-out
observable stats unchanged: the rp it adds to the player is exactly the rp
of the round row it inserts. -/
theorem obsRP_save (db : DBState) (gid : String) (a : SaveArgs) :
    obsRP (save_round db a.player a.date a.season a.course a.gross a.stbl
      a.rp a.new_hcp a.notes a.clean a.hio a.rivalry (some gid)) gid
      = obsRP db gid := by
  unfold obsRP save_round
  rw [List.filter_append, List.map_map]
  apply List.map_congr_left
  intro p _
  have hrow : List.filter (fun r => r.match_group_id = some gid)
      ([⟨some gid, a.player, a.date, a.season, a.course, a.gross, a.stbl,
        a.rp, a.new_hcp, a.notes, a.clean, a.hio, a.rivalry⟩] : List Round)
      = ([⟨some gid, a.player, a.date, a.season, a.course, a.gross, a.stbl,
        a.rp, a.new_hcp, a.notes, a.clean, a.hio, a.rivalry⟩] : List Round) := by
    simp [List.filter_cons]
  rw [hrow]
  by_cases h : p.name = a.player
  · simp only [Function.comp_apply, if_pos h, subSum_append, subCnt_append,
      subSum_cons, subCnt_cons, subSum_nil, subCnt_nil, if_pos h.symm,
      Prod.mk.injEq]
    refine ⟨trivial, by ring, by ring⟩
  · have h2 : ¬ a.player = p.name := fun hh => h hh.symm
    simp only [Function.comp_apply, if_neg h, subSum_append, subCnt_append,
      subSum_cons, subCnt_cons, subSum_nil, subCnt_nil, if_neg h2,
      Prod.mk.injEq]
    refine ⟨trivial, by ring, by ring⟩

/-- A whole submission batch leaves the backed-out observable stats
unchanged. -/
theorem obsRP_saveGroup (db : DBState) (gid : String)
    (args : List SaveArgs) :
    obsRP (saveGroup db gid args) gid = obsRP db gid := by
  induction args generalizing db with
  | nil => rfl
  | cons a args ih =>
    show obsRP (saveGroup (save_round db a.player a.date a.season a.course
      a.gross a.stbl a.rp a.new_hcp a.notes a.clean a.hio a.rivalry
      (some gid)) gid args) gid = obsRP db gid
    rw [ih, obsRP_save]

/-- On a database holding no round of the group, backing the group out is
the identity on the observable stats. -/
theorem obsRP_of_fresh (db : DBState) (gid : String)
    (h : ∀ r ∈ db.rounds, ¬ (r.match_group_id = some gid)) :
    obsRP db gid = projRP db.players := by
  unfold obsRP projRP
  have hfilter : db.rounds.filter
      (fun r => r.match_group_id = some gid) = [] := by
    rw [List.filter_eq_nil_iff]
    intro r hr
    simpa using h r hr
  rw [hfilter]
  apply List.map_congr_left
  intro p _
  simp [subSum_nil, subCnt_nil]

end DatabaseRoundTrip

/-- Under exact (infinite-precision) arithmetic, saving the records of a
match group under a fresh group id and then deleting that group restores
every player's `total_rp` and `rounds_played` to their pre-submission
values: the compensating transaction is algebraically exact. -/
theorem round_trip_exact_arithmetic :
    ∀ (db : DBState) (gid : String) (args : List SaveArgs),
      (∀ r ∈ db.rounds, ¬ (r.match_group_id = some gid)) →
      projRP (delete_round_group (saveGroup db gid args) gid).players
        = projRP db.players := by
  intro db gid args hfresh
  rw [delete_players_projRP, obsRP_saveGroup, obsRP_of_fresh db gid hfresh]

/-- Evaluation rule for `fl` on a positive rational with known binary
exponent and known rounded significand. -/
theorem fl_eval {q : ℚ} {k m : ℤ} (hq : 0 < q) (hlog : Int.log 2 q = k)
    (hm : pyRound (q * 2 ^ ((52 : ℤ) - k)) = m) :
    fl q = (m : ℚ) / 2 ^ ((52 : ℤ) - k) := by
  unfold fl
  rw [if_neg (ne_of_gt hq), abs_of_pos hq, hlog, hm]

/-- Binary64 step 1: the double nearest 10/3 (the stored value
3.3333333333333335) plus 5 rounds to 4691249611844267 / 2^49
(8.333333333333334). -/
theorem fl_step1 :
    fl ((18764998447377067 : ℚ) / 2251799813685248)
      = (4691249611844267 : ℚ) / 562949953421312 := by
  have harg : (18764998447377067 : ℚ) / 2251799813685248
      = (18764998447377067 : ℚ) / 2 ^ 51 := by norm_num
  rw [harg]
  have hlog : Int.log 2 ((18764998447377067 : ℚ) / 2 ^ 51) = 3 := by
    rw [Int.log_of_one_le_right _ (by norm_num)]
    rw [show ⌊(18764998447377067 : ℚ) / 2 ^ 51⌋₊ = 8 from
      (Nat.floor_eq_iff (by norm_num)).mpr ⟨by norm_num, by norm_num⟩]
    rw [show Nat.log 2 8 = 3 from by
      apply Nat.log_eq_of_pow_le_of_lt_pow <;> norm_num]
    norm_num
  have hm : pyRound ((18764998447377067 : ℚ) / 2 ^ 51 * 2 ^ ((52 : ℤ) - 3))
      = 4691249611844267 := by
    have harg2 : (18764998447377067 : ℚ) / 2 ^ 51 * 2 ^ ((52 : ℤ) - 3)
        = 4691249611844266 + 3 / 4 := by
      norm_num
    rw [harg2, pyRound_def]
    have hfl2 : ⌊(4691249611844266 : ℚ) + 3 / 4⌋ = 4691249611844266 := by
      norm_num
    rw [hfl2]
    norm_num
  rw [fl_eval (by norm_num) hlog hm]
  norm_num

/-- Binary64 step 2: subtracting 5 back lands on 7505999378950828 / 2^51
(3.333333333333334), one unit in the last place away from the original
7505999378950827 / 2^51. -/
theorem fl_step2 :
    fl ((1876499844737707 : ℚ) / 562949953421312)
      = (7505999378950828 : ℚ) / 2251799813685248 := by
  have harg : (1876499844737707 : ℚ) / 562949953421312
      = (1876499844737707 : ℚ) / 2 ^ 49 := by norm_num
  rw [harg]
  have hlog : Int.log 2 ((1876499844737707 : ℚ) / 2 ^ 49) = 1 := by
    rw [Int.log_of_one_le_right _ (by norm_num)]
    rw [show ⌊(1876499844737707 : ℚ) / 2 ^ 49⌋₊ = 3 from
      (Nat.floor_eq_iff (by norm_num)).mpr ⟨by norm_num, by norm_num⟩]
    rw [show Nat.log 2 3 = 1 from by
      apply Nat.log_eq_of_pow_le_of_lt_pow <;> norm_num]
    norm_num
  have hm : pyRound ((1876499844737707 : ℚ) / 2 ^ 49 * 2 ^ ((52 : ℤ) - 1))
      = 7505999378950828 := by
    have harg2 : (1876499844737707 : ℚ) / 2 ^ 49 * 2 ^ ((52 : ℤ) - 1)
        = (7505999378950828 : ℚ) := by
      norm_num
    rw [harg2, pyRound_def]
    norm_num
  rw [fl_eval (by norm_num) hlog hm]
  norm_num

/-- At REAL precision, the reversal loop of `delete_round_group` still
subtracts, per player, the exact count of that player's rounds in the
list (the INTEGER column is unaffected by `fl`). -/
theorem revertRoundReal_foldl_cnt (rs : List Round) (ps : List Player) :
    projCnt (rs.foldl revertRoundReal ps)
      = ps.map (fun p => (p.name, p.rounds_played - subCnt rs p.name)) := by
  induction rs generalizing ps with
  | nil =>
    unfold projCnt
    apply List.map_congr_left
    intro p _
    simp [subCnt_nil]
  | cons r rs ih =>
    rw [List.foldl_cons, ih]
    unfold revertRoundReal
    rw [List.map_map]
    apply List.map_congr_left
    intro p _
    by_cases h : p.name = r.player_name
    · simp only [Function.comp_apply, if_pos h, subCnt_cons,
        if_pos h.symm, Prod.mk.injEq]
      refine ⟨trivial, by ring⟩
    · have h2 : ¬ r.player_name = p.name := fun hh => h hh.symm
      simp only [Function.comp_apply, if_neg h, subCnt_cons,
        if_neg h2, Prod.mk.injEq]
      refine ⟨trivial, by ring⟩

/-- After `delete_round_groupReal`, the name/count view equals the
pre-deletion view with the group's rounds backed out. -/
theorem delete_players_projCnt (db : DBState) (gid : String) :
    projCnt (delete_round_groupReal db gid).players = obsCnt db gid := by
  show projCnt ((db.rounds.filter
      (fun r => r.match_group_id = some gid)).foldl revertRoundReal
        db.players)
    = obsCnt db gid
  rw [revertRoundReal_foldl_cnt]
  rfl

/-- One REAL-precision `save_round` leaves the backed-out name/count view
unchanged. -/
theorem obsCnt_saveReal (db : DBState) (gid : String) (a : SaveArgs) :
    obsCnt (save_roundReal db a.player a.date a.season a.course a.gross
      a.stbl a.rp a.new_hcp a.notes a.clean a.hio a.rivalry (some gid)) gid
      = obsCnt db gid := by
  unfold obsCnt save_roundReal
  rw [List.filter_append, List.map_map]
  apply List.map_congr_left
  intro p _
  have hrow : List.filter (fun r => r.match_group_id = some gid)
      ([⟨some gid, a.player, a.date, a.season, a.course, a.gross, a.stbl,
        a.rp, a.new_hcp, a.notes, a.clean, a.hio, a.rivalry⟩] : List Round)
      = ([⟨some gid, a.player, a.date, a.season, a.course, a.gross, a.stbl,
        a.rp, a.new_hcp, a.notes, a.clean, a.hio, a.rivalry⟩] : List Round) := by
    simp [List.filter_cons]
  rw [hrow]
  by_cases h : p.name = a.player
  · simp only [Function.comp_apply, if_pos h, subCnt_append, subCnt_cons,
      subCnt_nil, if_pos h.symm, Prod.mk.injEq]
    refine ⟨trivial, by ring⟩
  · have h2 : ¬ a.player = p.name := fun hh => h hh.symm
    simp only [Function.comp_apply, if_neg h, subCnt_append, subCnt_cons,
      subCnt_nil, if_neg h2, Prod.mk.injEq]
    refine ⟨trivial, by ring⟩

/-- A whole REAL-precision submission batch leaves the backed-out
name/count view unchanged. -/
theorem obsCnt_saveGroupReal (db : DBState) (gid : String)
    (args : List SaveArgs) :
    obsCnt (saveGroupReal db gid args) gid = obsCnt db gid := by
  induction args generalizing db with
  | nil => rfl
  | cons a args ih =>
    show obsCnt (saveGroupReal (save_roundReal db a.player a.date a.season
      a.course a.gross a.stbl a.rp a.new_hcp a.notes a.clean a.hio a.rivalry
      (some gid)) gid args) gid = obsCnt db gid
    rw [ih, obsCnt_saveReal]

/-- On a database holding no round of the group, backing the group's
counts out is the identity. -/
theorem obsCnt_of_fresh (db : DBState) (gid : String)
    (h : ∀ r ∈ db.rounds, ¬ (r.match_group_id = some gid)) :
    obsCnt db gid = projCnt db.players := by
  unfold obsCnt projCnt
  have hfilter : db.rounds.filter
      (fun r => r.match_group_id = some gid) = [] := by
    rw [List.filter_eq_nil_iff]
    intro r hr
    simpa using h r hr
  rw [hfilter]
  apply List.map_congr_left
  intro p _
  simp [subCnt_nil]

/-- C7 (amended): saving the records of a match group under a fresh group
id and then deleting that group restores every player's `rounds_played`
exactly even at the precision of the REAL column, and restores `total_rp`
exactly under exact (infinite-precision) rp arithmetic; at REAL (binary64)
precision the restored `total_rp` can differ from the pre-submission value
by a final rounding. -/
theorem C7_round_trip_amended :
    ∀ (db : DBState) (gid : String) (args : List SaveArgs),
      (∀ r ∈ db.rounds, ¬ (r.match_group_id = some gid)) →
      projRP (delete_round_group (saveGroup db gid args) gid).players
        = projRP db.players ∧
      projCnt (delete_round_groupReal (saveGroupReal db gid args)
          gid).players
        = projCnt db.players := by
  intro db gid args hfresh
  constructor
  · exact round_trip_exact_arithmetic db gid args hfresh
  · rw [delete_players_projCnt, obsCnt_saveGroupReal,
      obsCnt_of_fresh db gid hfresh]

/-- Witness for C7 (amended): one player, one submitted record, then
deletion, in both arithmetic models. -/
theorem C7_witness :
    (∀ r ∈ (⟨[⟨"A", 10, 10, 7, 3, 0⟩], []⟩ : DBState).rounds,
      ¬ (r.match_group_id = some "g")) ∧
    (projRP (delete_round_group
        (saveGroup (⟨[⟨"A", 10, 10, 7, 3, 0⟩], []⟩ : DBState) "g"
          [⟨"A", "2026-03-01", "Season 1", "Chinderah", 80, 38, 4, 9,
            "Stbl Perf (+4)", false, false, false⟩]) "g").players
      = projRP (⟨[⟨"A", 10, 10, 7, 3, 0⟩], []⟩ : DBState).players ∧
    projCnt (delete_round_groupReal
        (saveGroupReal (⟨[⟨"A", 10, 10, 7, 3, 0⟩], []⟩ : DBState) "g"
          [⟨"A", "2026-03-01", "Season 1", "Chinderah", 80, 38, 4, 9,
            "Stbl Perf (+4)", false, false, false⟩]) "g").players
      = projCnt (⟨[⟨"A", 10, 10, 7, 3, 0⟩], []⟩ : DBState).players) :=
  ⟨by simp, C7_round_trip_amended _ "g" _ (by simp)⟩

/-- Counterexample to C7 as stated: at the precision of the REAL column,
a player whose stored total is the binary64 value nearest 10/3
(3.3333333333333335, reachable via a three-way-tie pot share of 4/3) is
not restored exactly by a save/delete round trip of a 5-rp round: the
total comes back as 3.333333333333334, one unit in the last place away. -/
theorem C7_counterexample :
    (delete_round_groupReal
        (save_roundReal
          (⟨[⟨"A", 10, 10, (7505999378950827 : ℚ) / 2 ^ 51, 3, 0⟩], []⟩ :
            DBState)
          "A" "2026-03-01" "Season 1" "Chinderah" 80 36 5 10
          "Stbl Perf (+0), Part (+2)" false false false (some "g"))
        "g").players.map (fun p => p.total_rp)
      = [(7505999378950828 : ℚ) / 2 ^ 51] ∧
    ((7505999378950828 : ℚ) / 2 ^ 51 ≠ (7505999378950827 : ℚ) / 2 ^ 51) := by
  constructor
  · norm_num [save_roundReal, delete_round_groupReal, revertRoundReal,
      List.filter_cons, fl_step1, fl_step2]
  · norm_num

/-- The reversal loop of `delete_round_group` never touches the name,
handicap, starting handicap or wins columns. -/
theorem revertRound_foldl_frame (rs : List Round) (ps : List Player) :
    projFrame (rs.foldl revertRound ps) = projFrame ps := by
  induction rs generalizing ps with
  | nil => rfl
  | cons r rs ih =>
    rw [List.foldl_cons, ih]
    unfold revertRound projFrame
    rw [List.map_map]
    apply List.map_congr_left
    intro p _
    by_cases h : p.name = r.player_name
    · simp only [Function.comp_apply, if_pos h]
    · simp only [Function.comp_apply, if_neg h]

/-- C10: `delete_round_group` only writes `total_rp` and `rounds_played`;
name, handicap, starting handicap and wins are untouched.  Concretely,
after saving a round that moved player A's handicap from 10.0 to 9.0 and
deleting the group, the handicap stays 9.0 rather than reverting. -/
theorem C10_delete_preserves_handicap :
    (∀ (db : DBState) (gid : String),
      projFrame (delete_round_group db gid).players
        = projFrame db.players) ∧
    (delete_round_group
        (save_round (⟨[⟨"A", 10, 10, 0, 0, 0⟩], []⟩ : DBState) "A"
          "2026-03-01" "Season 1" "Chinderah" 80 38 4 9 "Stbl Perf (+4)"
          false false false (some "g")) "g").players.map
      (fun p => (p.name, p.handicap)) = [("A", 9)] := by
  constructor
  · intro db gid
    exact revertRound_foldl_frame _ _
  · norm_num [save_round, delete_round_group, revertRound, List.filter_cons]

/-- C9 (code bug exhibit): player A's only prior round is a 1v1 duel
(stored with `is_rivalry = 1`), so A has never appeared in a 2v2 match;
on A's first 2v2 submission `has_played_2v2` nevertheless reports `true`
(it counts every rivalry round, duels included) and the handler pays A
plain stakes of 5 with no Duo Debut bonus, while teammate B, also
debuting, receives 5 + 5 = 10. -/
theorem C9_duo_debut_skipped_after_duel :
    (⟨[⟨"A", 10, 10, 5, 1, 0⟩, ⟨"B", 11, 11, 0, 0, 0⟩,
        ⟨"C", 12, 12, 0, 0, 0⟩, ⟨"D", 13, 13, 0, 0, 0⟩],
       [⟨some "g0", "A", "2026-01-10", "Season 1", "Chinderah (Duel)", 80, 0,
         5, 10, "Duel Win (+5)", false, false, true⟩]⟩ : DBState).rounds.filter
      (fun r => r.player_name = "A" ∧ r.course = "2v2 Match") = [] ∧
    has_played_2v2
      (⟨[⟨"A", 10, 10, 5, 1, 0⟩, ⟨"B", 11, 11, 0, 0, 0⟩,
        ⟨"C", 12, 12, 0, 0, 0⟩, ⟨"D", 13, 13, 0, 0, 0⟩],
       [⟨some "g0", "A", "2026-01-10", "Season 1", "Chinderah (Duel)", 80, 0,
         5, 10, "Duel Win (+5)", false, false, true⟩]⟩ : DBState) "A" = true ∧
    ((submit2v2
        (⟨[⟨"A", 10, 10, 5, 1, 0⟩, ⟨"B", 11, 11, 0, 0, 0⟩,
          ⟨"C", 12, 12, 0, 0, 0⟩, ⟨"D", 13, 13, 0, 0, 0⟩],
         [⟨some "g0", "A", "2026-01-10", "Season 1", "Chinderah (Duel)", 80, 0,
           5, 10, "Duel Win (+5)", false, false, true⟩]⟩ : DBState)
        "2026-02-01" "Season 1" ["A", "B"] ["C", "D"] 3 1 "g1").rounds.filter
      (fun r => r.match_group_id = some "g1" ∧
        (r.player_name = "A" ∨ r.player_name = "B"))).map
      (fun r => (r.player_name, r.rp_earned)) = [("A", 5), ("B", 10)] := by
  refine ⟨by decide, by decide, ?_⟩
  norm_num [submit2v2, has_played_2v2, save_round, List.filter_cons,
    List.filter_append]
  simp
  norm_num

end FG
